import Mathlib

/-!
Verification of the FinCoach rule-based insight engine: a shallow embedding
of the TransactionIngestor (parseCSV, parseDate), CategoryClassifier
(categorizeExpense), SpendAggregator (Dashboard insights), AdviceGenerator
(generateAdvice), AnomalyDetector (detectAnomalies, getWeekNumber) and
ChatResponder (generateChatResponse). JavaScript numbers are modelled as
exact rationals; the wall clock that the source reads implicitly
(new Date(), Date.now()) is passed as explicit arguments.
-/

namespace FinCoach

/-! ## String utilities (JavaScript string semantics on character lists) -/

/-- Lower-casing a string, mirroring toLowerCase on the ASCII inputs used. -/
def lowerStr (s : String) : String := ⟨s.data.map Char.toLower⟩

/-- Test whether the pattern is an initial segment of the list. -/
def leadsWith : List Char → List Char → Bool
  | [], _ => true
  | _ :: _, [] => false
  | a :: as, b :: bs => a = b && leadsWith as bs

/-- Substring containment on character lists, mirroring String.includes. -/
def containsSubL (l pat : List Char) : Bool :=
  (List.range (l.length + 1)).any (fun i => leadsWith pat (l.drop i))

/-- Substring containment on strings, mirroring String.includes. -/
def containsSub (s pat : String) : Bool := containsSubL s.data pat.data

/-- Prefix test on strings, mirroring String.startsWith. -/
def myStartsWith (s pre : String) : Bool := leadsWith pre.data s.data

/-- Split a character list at every occurrence of the separator, mirroring
JavaScript split with a single-character separator (the empty input yields
one empty field, never an empty list). -/
def splitChar (sep : Char) : List Char → List (List Char)
  | [] => [[]]
  | c :: rest =>
    let r := splitChar sep rest
    if c = sep then [] :: r
    else
      match r with
      | [] => [[c]]
      | h :: t => (c :: h) :: t

/-- Whitespace trim on both ends, mirroring String.trim. -/
def trimChars (l : List Char) : List Char :=
  ((l.dropWhile Char.isWhitespace).reverse.dropWhile Char.isWhitespace).reverse

/-- Join a list of strings with a separator, mirroring Array.join. -/
def joinSep (sep : String) : List String → String
  | [] => ""
  | [x] => x
  | x :: xs => x ++ sep ++ joinSep sep xs

/-! ## Calendar dates

The source stores transaction dates as ISO strings and turns them into
Date objects; the runtime is modelled at UTC, where a parsed ISO date and
a local (year, 0, 1) construction denote midnight of the same civil day. -/

/-- Calendar date (year, month 1-12, day 1-31). -/
structure SimpleDate where
  year : Nat
  month : Nat
  day : Nat
deriving DecidableEq

/-- Gregorian leap-year test. -/
def isLeap (y : Nat) : Bool := (y % 4 == 0 && y % 100 != 0) || y % 400 == 0

/-- Length of a month in a given year. -/
def daysInMonth (y m : Nat) : Nat :=
  if m = 2 then (if isLeap y then 29 else 28)
  else if m = 4 ∨ m = 6 ∨ m = 9 ∨ m = 11 then 30
  else 31

/-- Number of leap years in the interval from year 0 (inclusive) to y
(exclusive), proleptic Gregorian. -/
def leapCount (y : Nat) : Nat := (y + 3) / 4 - (y + 99) / 100 + (y + 399) / 400

/-- Days contained in all years before y, counting from year 0. -/
def daysBeforeYear (y : Nat) : Nat := 365 * y + leapCount y

/-- Days contained in the months of year y before month m. -/
def daysBeforeMonth (y m : Nat) : Nat :=
  ((List.range (m - 1)).map (fun i => daysInMonth y (i + 1))).sum

/-- Zero-based index of the date inside its year, the integer that the
source derives from a millisecond difference divided by 86400000. -/
def dayOfYear (d : SimpleDate) : Nat := daysBeforeMonth d.year d.month + (d.day - 1)

/-- Weekday of January 1 of year y with Sunday as 0, the getDay value of
the first day of the year (year 2000 began on a Saturday and its day
count from year 0 is divisible by 7). -/
def jan1Weekday (y : Nat) : Nat := (daysBeforeYear y + 6) % 7

/-- Week-of-year number: ceil((pastDaysOfYear + firstDayOfYear.getDay() + 1) / 7),
translated from getWeekNumber in src/src/utils/aiCoach.ts. The year enters
only through the weekday of its own January 1; no year tag is kept. -/
def getWeekNumber (d : SimpleDate) : Nat :=
  (dayOfYear d + jan1Weekday d.year + 1 + 6) / 7

/-- Digits of a numeral as a natural number. -/
def digitsVal (l : List Char) : Nat := l.foldl (fun n c => n * 10 + (c.toNat - 48)) 0

/-- Parse a strict ISO YYYY-MM-DD string into a date; none mirrors an
Invalid Date (whose week number comparisons are all false). -/
def parseISODate (s : String) : Option SimpleDate :=
  match splitChar ('-') s.data with
  | [y, m, d] =>
    if y.length = 4 ∧ m.length = 2 ∧ d.length = 2 ∧
       y.all Char.isDigit ∧ m.all Char.isDigit ∧ d.all Char.isDigit then
      let yv := digitsVal y
      let mv := digitsVal m
      let dv := digitsVal d
      if 1 ≤ mv ∧ mv ≤ 12 ∧ 1 ≤ dv ∧ dv ≤ daysInMonth yv mv then
        some ⟨yv, mv, dv⟩
      else none
    else none
  | _ => none

/-- Week number of a stored transaction-date string, none when the string
is not a valid date. -/
def weekOfDateStr (s : String) : Option Nat := (parseISODate s).map getWeekNumber

/-! ## Data model (src/src/types.ts) -/

/-- Spending category, from the Category interface in src/src/types.ts. -/
structure Category where
  id : String
  name : String
  color : String
  icon : String
  keywords : List String
deriving DecidableEq

/-- Expense record, from the Expense interface in src/src/types.ts. -/
structure Expense where
  id : String
  userId : String
  categoryId : String
  amount : ℚ
  description : String
  transactionDate : String
  source : String
  createdAt : String
deriving DecidableEq

/-- Savings goal, from the SavingsGoal interface in src/src/types.ts. -/
structure SavingsGoal where
  id : String
  userId : String
  monthlyTarget : ℚ
  currentMonth : String
  active : Bool
deriving DecidableEq

/-- Advice item, from the AIAdvice interface in src/src/types.ts. -/
structure AIAdvice where
  id : String
  title : String
  message : String
  potentialSavings : Option ℚ
  category : Option String
deriving DecidableEq

/-- Per-category aggregate, from the SpendingInsight interface in
src/src/types.ts. -/
structure SpendingInsight where
  category : String
  amount : ℚ
  percentage : ℚ
  color : String
deriving DecidableEq

/-- Normalized transaction, from the ParsedTransaction interface in
src/src/types.ts. -/
structure ParsedTransaction where
  date : String
  description : String
  amount : ℚ
deriving DecidableEq

/-! ## CategoryClassifier (categorizeExpense, src/unnamed/part_000) -/

/-- Identifier of the last category of the list; behaviour on an empty
list is the undefined-behaviour boundary the spec declares (the source
would throw there), modelled as the empty string. -/
def lastCategoryId (categories : List Category) : String :=
  ((categories.getLast?).map Category.id).getD ""

/-- Keyword classifier translated from categorizeExpense: scan categories
in order, skipping any named Others, and return the first category one of
whose lower-cased keywords occurs in the lower-cased description; fall
back to the Others category (or, when its id is falsy or it is absent, to
the last category of the list). -/
def categorizeExpense (description : String) (categories : List Category) : String :=
  let lowerDesc := lowerStr description
  match categories.find? (fun c =>
      !(c.name == "Others") &&
      c.keywords.any (fun k => containsSub lowerDesc (lowerStr k))) with
  | some c => c.id
  | none =>
    match categories.find? (fun c => c.name == "Others") with
    | some c => if c.id = "" then lastCategoryId categories else c.id
    | none => lastCategoryId categories

/-! ## TransactionIngestor (parseCSV and parseDate, src/src/types.ts) -/

/-- Failures of a parseCSV call: the explicit missing-column throw, and
the TypeError raised when a data row has no field at the amount column
index (undefined.replace). -/
inductive CsvError
  | missingColumn
  | typeError
deriving DecidableEq

/-- Fixed-length pieces of the three date regular expressions: a run of
exactly n digits, or one literal character. -/
inductive Tok
  | digits (n : Nat)
  | lit (c : Char)

/-- Match a token sequence at the head of the input, returning the digit
groups; trailing input is ignored, as the source patterns are unanchored. -/
def matchToks : List Tok → List Char → Option (List (List Char))
  | [], _ => some []
  | Tok.digits n :: ts, l =>
    let g := l.take n
    if g.length = n ∧ g.all Char.isDigit then
      (matchToks ts (l.drop n)).map (fun gs => g :: gs)
    else none
  | Tok.lit c :: ts, x :: r => if x = c then matchToks ts r else none
  | Tok.lit _ :: _, [] => none

/-- Search for the leftmost match of a token sequence, mirroring an
unanchored regular-expression match. -/
def searchToks (ts : List Tok) : List Char → Option (List (List Char))
  | [] => matchToks ts []
  | c :: r =>
    match matchToks ts (c :: r) with
    | some gs => some gs
    | none => searchToks ts r

/-- Pattern YYYY-MM-DD. -/
def isoFmt : List Tok := [Tok.digits 4, Tok.lit ('-'), Tok.digits 2, Tok.lit ('-'), Tok.digits 2]

/-- Pattern DD/MM/YYYY. -/
def slashFmt : List Tok := [Tok.digits 2, Tok.lit ('/'), Tok.digits 2, Tok.lit ('/'), Tok.digits 4]

/-- Pattern DD-MM-YYYY. -/
def dashFmt : List Tok := [Tok.digits 2, Tok.lit ('-'), Tok.digits 2, Tok.lit ('-'), Tok.digits 4]

/-- Date normalizer translated from parseDate in src/src/types.ts: try the
three formats in order; a first group of length 4 is already ISO ordered,
otherwise the groups are day-month-year and are reversed; when nothing
matches, fall back to the current processing date, passed here explicitly
as todayISO. -/
def parseDate (todayISO : String) (dateStr : String) : String :=
  match (searchToks isoFmt dateStr.data).orElse
        (fun _ => (searchToks slashFmt dateStr.data).orElse
        (fun _ => searchToks dashFmt dateStr.data)) with
  | some (g1 :: g2 :: g3 :: _) =>
    if g1.length = 4 then ⟨g1 ++ '-' :: g2 ++ '-' :: g3⟩
    else ⟨g3 ++ '-' :: g2 ++ '-' :: g1⟩
  | _ => todayISO

/-- Characters removed from the amount field: the source character class
is the mojibake spelling of the rupee sign plus the comma. -/
def isStrippedChar (c : Char) : Bool :=
  c = 'â' || c = '‚' || c = '¹' || c = ','

/-- JavaScript parseFloat on a trimmed field: optional sign, an integer
part and an optional fractional part (at least one digit in total);
trailing junk is ignored, and none mirrors NaN. Exponent notation is not
modelled. -/
def parseFloat (l : List Char) : Option ℚ :=
  let signAndRest : ℚ × List Char :=
    match l with
    | '-' :: r => (-1, r)
    | '+' :: r => (1, r)
    | _ => (1, l)
  let intD := signAndRest.2.takeWhile Char.isDigit
  let afterInt := signAndRest.2.dropWhile Char.isDigit
  let fracD :=
    match afterInt with
    | '.' :: r => r.takeWhile Char.isDigit
    | _ => []
  if intD = [] ∧ fracD = [] then none
  else some (signAndRest.1 * ((digitsVal intD : ℚ) + (digitsVal fracD : ℚ) / (10 ^ fracD.length)))

/-- Lines of the CSV input: the trimmed content split at newlines. -/
def csvLines (content : String) : List (List Char) :=
  splitChar ('\n') (trimChars content.data)

/-- Header cells: the first line lower-cased, split at commas and trimmed. -/
def csvHeaders (content : String) : List (List Char) :=
  match csvLines content with
  | [] => []
  | h :: _ => (splitChar (',') (h.map Char.toLower)).map trimChars

/-- Index of the first header containing "date". -/
def dateIdx (content : String) : Option Nat :=
  (csvHeaders content).findIdx? (fun h => containsSubL h ("date".data))

/-- Index of the first header containing "description", "narration" or
"details". -/
def descIdx (content : String) : Option Nat :=
  (csvHeaders content).findIdx? (fun h =>
    containsSubL h ("description".data) || containsSubL h ("narration".data) ||
    containsSubL h ("details".data))

/-- Index of the first header containing "amount", "debit" or
"withdrawal". -/
def amountIdx (content : String) : Option Nat :=
  (csvHeaders content).findIdx? (fun h =>
    containsSubL h ("amount".data) || containsSubL h ("debit".data) ||
    containsSubL h ("withdrawal".data))

/-- Data-row loop of parseCSV. A blank row is skipped. Reading the amount
cell of a row that has no field at the amount index throws (typeError);
a missing date or description cell is merely falsy. A row is kept only
when date and description are nonempty and the amount parses to a
strictly positive number. -/
def parseRows (todayISO : String) (di de ai : Nat) :
    List (List Char) → Except CsvError (List ParsedTransaction)
  | [] => Except.ok []
  | line :: rest =>
    let t := trimChars line
    if t = [] then parseRows todayISO di de ai rest
    else
      let values := (splitChar (',') t).map trimChars
      match values[ai]? with
      | none => Except.error CsvError.typeError
      | some amountRaw =>
        let amountStr := amountRaw.filter (fun c => !isStrippedChar c)
        let dateStr := values.getD di []
        let description := values.getD de []
        match parseFloat amountStr with
        | none => parseRows todayISO di de ai rest
        | some amount =>
          if dateStr ≠ [] ∧ description ≠ [] ∧ 0 < amount then
            (parseRows todayISO di de ai rest).map
              (fun ts => ⟨parseDate todayISO ⟨dateStr⟩, ⟨description⟩, amount⟩ :: ts)
          else parseRows todayISO di de ai rest

/-- CSV ingestor translated from parseCSV in src/src/types.ts. The
empty-lines early return is kept although splitting never produces an
empty list; the current processing date used by the parseDate fallback is
the explicit todayISO argument. -/
def parseCSV (todayISO : String) (content : String) :
    Except CsvError (List ParsedTransaction) :=
  match csvLines content with
  | [] => Except.ok []
  | _ :: rest =>
    match dateIdx content, descIdx content, amountIdx content with
    | some di, some de, some ai => parseRows todayISO di de ai rest
    | _, _, _ => Except.error CsvError.missingColumn

/-! ## Shared aggregation (month filter and per-category totals)

The month window and the keyed totals are computed identically in
generateAdvice, generateChatResponse and the Dashboard loadData; the
JavaScript Map is modelled as an insertion-ordered association list. -/

/-- Expenses whose stored date string starts with the current month key. -/
def monthExpenses (expenses : List Expense) (currentMonth : String) : List Expense :=
  expenses.filter (fun e => myStartsWith e.transactionDate currentMonth)

/-- Add v to the entry at key k, appending a fresh entry at the end when
the key is absent: the get-or-zero/set step of the totals loop. -/
def mapAdd (m : List (String × ℚ)) (k : String) (v : ℚ) : List (String × ℚ) :=
  match m with
  | [] => [(k, v)]
  | kv :: rest => if kv.1 = k then (kv.1, kv.2 + v) :: rest else kv :: mapAdd rest k v

/-- Per-category totals of a list of expenses, in first-seen key order. -/
def categoryTotals (es : List Expense) : List (String × ℚ) :=
  es.foldl (fun m e => mapAdd m e.categoryId e.amount) []

/-- Rendering of a number with toFixed(0): round to the nearest integer,
ties toward the larger value. -/
def toFixed0 (q : ℚ) : String := toString (Int.floor (q + 1 / 2))

/-! ## AdviceGenerator (generateAdvice, src/src/utils/aiCoach.ts) -/

/-- High-food-spend advice item. -/
def foodAdvice (now : Nat) (percentage amount : ℚ) : AIAdvice :=
  { id := "advice-food-" ++ toString now
    title := "High Food Spending Detected"
    message := "You spent " ++ toFixed0 percentage ++ "% of your budget on Food (₹" ++
      toFixed0 amount ++ "). Cutting weekly food deliveries in half could save you ₹" ++
      toFixed0 (amount * (3 / 10)) ++ "/month."
    potentialSavings := some (amount * (3 / 10))
    category := some ("Food") }

/-- Subscription-review advice item. -/
def subsAdvice (now : Nat) (amount : ℚ) : AIAdvice :=
  { id := "advice-subs-" ++ toString now
    title := "Subscription Review Needed"
    message := "Your subscriptions cost ₹" ++ toFixed0 amount ++
      "/month. Cancelling 2 unused subscriptions could save ₹" ++
      toFixed0 (min 600 (amount * (2 / 5))) ++ "/month."
    potentialSavings := some (min 600 (amount * (2 / 5)))
    category := some ("Subscriptions") }

/-- Shopping-alert advice item. -/
def shopAdvice (now : Nat) (percentage amount : ℚ) : AIAdvice :=
  { id := "advice-shop-" ++ toString now
    title := "Shopping Alert"
    message := "Shopping represents " ++ toFixed0 percentage ++
      "% of expenses. Consider setting a monthly shopping budget to save ₹" ++
      toFixed0 (amount * (1 / 4)) ++ "."
    potentialSavings := some (amount * (1 / 4))
    category := some ("Shopping") }

/-- Goal-at-risk advice item (no savings figure). -/
def goalAdvice (now : Nat) (overBy : ℚ) : AIAdvice :=
  { id := "advice-goal-" ++ toString now
    title := "Savings Goal at Risk"
    message := "You\x27ve exceeded your budget by ₹" ++ toFixed0 overBy ++
      ". Consider reducing discretionary spending to get back on track."
    potentialSavings := none
    category := some ("Goal") }

/-- Advice produced by one totals entry: resolve its category, skip
unresolved ids and the Others category, then evaluate the three
independent rules of the fixed rule table. -/
def adviceForEntry (categories : List Category) (totalSpent : ℚ) (now : Nat)
    (kv : String × ℚ) : List AIAdvice :=
  match categories.find? (fun c => c.id == kv.1) with
  | none => []
  | some category =>
    if category.name = "Others" then []
    else
      let percentage := kv.2 / totalSpent * 100
      (if category.name = "Food" ∧ 30 < percentage then [foodAdvice now percentage kv.2] else []) ++
      (if category.name = "Subscriptions" ∧ 1500 < kv.2 then [subsAdvice now kv.2] else []) ++
      (if category.name = "Shopping" ∧ 25 < percentage then [shopAdvice now percentage kv.2] else [])

/-- Goal rule: fires when a goal is present, active and the month total
exceeds its monthly target. -/
def goalAdviceList (goal : Option SavingsGoal) (totalSpent : ℚ) (now : Nat) : List AIAdvice :=
  match goal with
  | some g =>
    if g.active = true ∧ g.monthlyTarget - totalSpent < 0 then
      [goalAdvice now |g.monthlyTarget - totalSpent|]
    else []
  | none => []

/-- Advice generator translated from generateAdvice in
src/src/utils/aiCoach.ts. The current month key (new Date() sliced to
YYYY-MM) and the Date.now() timestamp embedded in the advice ids are the
explicit arguments currentMonth and now. -/
def generateAdvice (expenses : List Expense) (categories : List Category)
    (goal : Option SavingsGoal) (currentMonth : String) (now : Nat) : List AIAdvice :=
  let mExp := monthExpenses expenses currentMonth
  if mExp = [] then []
  else
    let totals := categoryTotals mExp
    let totalSpent := (totals.map (fun kv => kv.2)).sum
    totals.flatMap (adviceForEntry categories totalSpent now) ++
      goalAdviceList goal totalSpent now

/-! ## AnomalyDetector (detectAnomalies, src/src/utils/aiCoach.ts) -/

/-- Expenses whose date has the same week number as today; the year of
the date plays no role beyond its own January-1 weekday. -/
def thisWeekExpenses (expenses : List Expense) (today : SimpleDate) : List Expense :=
  expenses.filter (fun e => weekOfDateStr e.transactionDate == some (getWeekNumber today))

/-- Expenses whose date has week number one less than today. -/
def lastWeekExpenses (expenses : List Expense) (today : SimpleDate) : List Expense :=
  expenses.filter (fun e => weekOfDateStr e.transactionDate == some (getWeekNumber today - 1))

/-- Total of a week window restricted to one category. -/
def weekCategoryTotal (weekExps : List Expense) (c : Category) : ℚ :=
  ((weekExps.filter (fun e => e.categoryId == c.id)).map (fun e => e.amount)).sum

/-- Spike alert text. -/
def anomalyMsg (c : Category) (thisT lastT : ℚ) : String :=
  "This week you spent ₹" ++ toFixed0 thisT ++ " on " ++ c.name ++
    " vs usual ₹" ++ toFixed0 lastT

/-- Anomaly detector translated from detectAnomalies in
src/src/utils/aiCoach.ts; today stands for the new Date() read. -/
def detectAnomalies (expenses : List Expense) (categories : List Category)
    (today : SimpleDate) : List String :=
  let tw := thisWeekExpenses expenses today
  let lw := lastWeekExpenses expenses today
  categories.foldl (fun alerts c =>
    if c.name = "Others" then alerts
    else
      let thisT := weekCategoryTotal tw c
      let lastT := weekCategoryTotal lw c
      if 0 < lastT ∧ lastT * 2 < thisT then alerts ++ [anomalyMsg c thisT lastT]
      else alerts) []

/-! ## ChatResponder (generateChatResponse, src/src/utils/aiCoach.ts) -/

/-- Fallback help message for unrecognized intents. -/
def genericHelp : String :=
  "I\x27m here to help you manage your finances! Ask me about your biggest expenses, savings tips, or your progress toward your goal."

/-- No-data message of the travel intent. -/
def noTravelDataMsg : String :=
  "You haven\x27t recorded any travel expenses this month."

/-- Travel-spend report of the travel intent. -/
def travelMsg (total : ℚ) : String :=
  "You\x27ve spent ₹" ++ toFixed0 total ++
    " on travel this month. Consider carpooling, using public transport, or combining trips to save on fuel and fares."

/-- No-goal prompt of the goal intent. -/
def noGoalMsg : String :=
  "You haven\x27t set a savings goal yet. Would you like to set one to track your progress?"

/-- Current-month total of the Travel category. -/
def travelTotal (expenses : List Expense) (tc : Category) (currentMonth : String) : ℚ :=
  ((expenses.filter (fun e =>
      e.categoryId == tc.id && myStartsWith e.transactionDate currentMonth)).map
    (fun e => e.amount)).sum

/-- Maximum scan of the biggest-expense intent: running maximum starting
at zero with an empty name; a resolved category with a falsy name, or an
unresolved id, displays as Unknown. -/
def biggestScan (categories : List Category) (totals : List (String × ℚ)) : ℚ × String :=
  totals.foldl (fun p kv =>
    if p.1 < kv.2 then
      (kv.2,
        match categories.find? (fun c => c.id == kv.1) with
        | some c => if c.name = "" then "Unknown" else c.name
        | none => "Unknown")
    else p) (0, "")

/-- Chat responder translated from generateChatResponse in
src/src/utils/aiCoach.ts: ordered case-insensitive substring intent
checks, first match wins; currentMonth and now stand for the internal
clock reads (the latter reaches the ids of the advice built by the
savings intent). -/
def generateChatResponse (message : String) (expenses : List Expense)
    (categories : List Category) (goal : Option SavingsGoal)
    (currentMonth : String) (now : Nat) : String :=
  let lm := lowerStr message
  if containsSub lm ("biggest") && containsSub lm ("expense") then
    let mx := biggestScan categories (categoryTotals (monthExpenses expenses currentMonth))
    if mx.2 ≠ "" then
      "Your biggest expense this month is " ++ mx.2 ++ ", totaling ₹" ++
        toFixed0 mx.1 ++ ". That\x27s a significant portion of your budget!"
    else "You don\x27t have any expenses recorded yet this month."
  else if containsSub lm ("save") || containsSub lm ("saving") then
    let advice := generateAdvice expenses categories goal currentMonth now
    if advice ≠ [] then
      "Here are some savings tips: " ++ joinSep (" ") ((advice.take 2).map (fun a => a.message))
    else "Great spending habits! Keep tracking your expenses to find more savings opportunities."
  else if containsSub lm ("goal") then
    match goal with
    | none => noGoalMsg
    | some g =>
      if g.active = false then noGoalMsg
      else
        let totalSpent := ((monthExpenses expenses currentMonth).map (fun e => e.amount)).sum
        let remaining := g.monthlyTarget - totalSpent
        if 0 < remaining then
          "You\x27re on track! You have ₹" ++ toFixed0 remaining ++
            " left to stay within your ₹" ++ toString g.monthlyTarget ++
            " monthly goal. Keep it up!"
        else
          "You\x27ve exceeded your goal by ₹" ++ toFixed0 |remaining| ++
            ". Don\x27t worry, tomorrow is a fresh start!"
  else if containsSub lm ("transport") || containsSub lm ("travel") then
    match categories.find? (fun c => c.name == "Travel") with
    | some travelCat =>
      if 0 < travelTotal expenses travelCat currentMonth then
        travelMsg (travelTotal expenses travelCat currentMonth)
      else noTravelDataMsg
    | none => genericHelp
  else genericHelp

/-! ## SpendAggregator (loadData insights, src/src/components/Dashboard.tsx) -/

/-- Insight of one totals entry: kept only when the category id resolves,
with percentage share of the window total. -/
def insightFor (categories : List Category) (totalSpent : ℚ)
    (kv : String × ℚ) : List SpendingInsight :=
  match categories.find? (fun c => c.id == kv.1) with
  | some c => [⟨c.name, kv.2, kv.2 / totalSpent * 100, c.color⟩]
  | none => []

/-- Unsorted insight rows of the current month. -/
def insightsUnsorted (expenses : List Expense) (categories : List Category)
    (currentMonth : String) : List SpendingInsight :=
  let totals := categoryTotals (monthExpenses expenses currentMonth)
  let totalSpent := (totals.map (fun kv => kv.2)).sum
  totals.flatMap (insightFor categories totalSpent)

/-- Stable insertion into a descending-by-amount list. -/
def insertDesc (x : SpendingInsight) : List SpendingInsight → List SpendingInsight
  | [] => [x]
  | y :: ys => if y.amount < x.amount then x :: y :: ys else y :: insertDesc x ys

/-- Stable sort by descending amount, the comparator of the source. -/
def sortByAmountDesc (l : List SpendingInsight) : List SpendingInsight :=
  l.foldr insertDesc []

/-- Spending insights as computed by loadData in Dashboard.tsx: month
filter, keyed totals, percentage shares, sorted by descending amount. -/
def spendingInsights (expenses : List Expense) (categories : List Category)
    (currentMonth : String) : List SpendingInsight :=
  sortByAmountDesc (insightsUnsorted expenses categories currentMonth)

/-- Identifier-free view of an advice item: every field except the id,
which embeds the Date.now() read. -/
structure AdviceBody where
  title : String
  message : String
  potentialSavings : Option ℚ
  category : Option String
deriving DecidableEq

/-- Drop the timestamp-bearing id of an advice item. -/
def stripAdviceId (a : AIAdvice) : AdviceBody :=
  ⟨a.title, a.message, a.potentialSavings, a.category⟩

/-! ## Spec-side aggregate expressions, for stating the claims -/

/-- Value stored under a key in an association list, zero when absent:
the get-or-zero read of the totals map. -/
def lookupAmt (m : List (String × ℚ)) (k : String) : ℚ :=
  match m.find? (fun kv => kv.1 == k) with
  | some kv => kv.2
  | none => 0

/-- Direct sum of the amounts of the expenses carrying one category id. -/
def categorySum (es : List Expense) (k : String) : ℚ :=
  ((es.filter (fun e => e.categoryId == k)).map (fun e => e.amount)).sum

/-- Direct sum of all current-month amounts. -/
def monthTotal (expenses : List Expense) (currentMonth : String) : ℚ :=
  ((monthExpenses expenses currentMonth).map (fun e => e.amount)).sum

/-! # Theorems -/

/-- C8: the ingestor date parser maps "2024-01-15", "15/01/2024" and
"15-01-2024" to the same normalized ISO string "2024-01-15", whatever the
processing date is. -/
theorem parseDate_format_equivalence : ∀ todayISO : String,
    parseDate todayISO "2024-01-15" = "2024-01-15" ∧
    parseDate todayISO "15/01/2024" = "2024-01-15" ∧
    parseDate todayISO "15-01-2024" = "2024-01-15" :=
  fun _ => ⟨rfl, rfl, rfl⟩

/-- C2, evaluation at the failing input: parseCSV applied to the empty
string does not return an empty transaction list; it fails with the
missing-column error, because splitting the empty string yields one empty
line, so the empty-lines guard never fires and header detection runs on
an empty header and fails. -/
theorem parseCSV_empty_input (todayISO : String) :
    parseCSV todayISO "" = Except.error CsvError.missingColumn := rfl

/-- C7 (amended): when no keyword of any non-fallback category occurs in
the lower-cased description, categorizeExpense returns the id of the
first category named Others, except that a falsy (empty-string) Others id
falls through to the id of the last category, which is also returned when
no category is named Others. -/
theorem categorize_fallback (description : String) (categories : List Category)
    (hne : categories ≠ [])
    (hnomatch : ∀ c ∈ categories, c.name ≠ "Others" →
      ∀ k ∈ c.keywords, containsSub (lowerStr description) (lowerStr k) = false) :
    categorizeExpense description categories =
      match categories.find? (fun c => c.name == "Others") with
      | some c => if c.id = "" then lastCategoryId categories else c.id
      | none => lastCategoryId categories := by
  have hmain : categories.find? (fun c =>
      !(c.name == "Others") &&
      c.keywords.any (fun k => containsSub (lowerStr description) (lowerStr k))) = none := by
    rw [List.find?_eq_none]
    intro c hc
    by_cases hO : c.name = "Others"
    · simp [hO]
    · simp only [Bool.and_eq_true, Bool.not_eq_true', beq_eq_false_iff_ne, ne_eq, hO,
        not_false_eq_true, true_and, Bool.not_eq_true, List.any_eq_false]
      intro k hk
      simp [hnomatch c hc hO k hk]
  simp only [categorizeExpense]
  rw [hmain]

/-- C7, counterexample to the claim as stated: with a first category
named Others whose id is the empty string, the classifier does not return
the Others id on a no-keyword description; the falsy id makes it fall
through to the id of the last category. -/
theorem categorize_fallback_cex :
    categorizeExpense "zzz" [⟨"", "Others", "", "", []⟩, ⟨"cat-x", "Misc", "", "", ["k"]⟩] = "cat-x" ∧
    List.find? (fun c => c.name == "Others")
      [⟨"", "Others", "", "", []⟩, (⟨"cat-x", "Misc", "", "", ["k"]⟩ : Category)] =
      some ⟨"", "Others", "", "", []⟩ ∧
    ("cat-x" : String) ≠ "" := by
  refine ⟨rfl, rfl, ?_⟩
  decide

/-- C7, witness of the amended claim at a concrete input: a default-like
category list with a nonempty Others id, and a description matching no
keyword, lands on the Others id. -/
theorem categorize_fallback_witness :
    categorizeExpense "xyz"
      [⟨"cat-1", "Food", "#ef4444", "utensils", ["swiggy", "zomato"]⟩,
       ⟨"cat-6", "Others", "#64748b", "more-horizontal", []⟩] = "cat-6" :=
  categorize_fallback "xyz"
    [⟨"cat-1", "Food", "#ef4444", "utensils", ["swiggy", "zomato"]⟩,
     ⟨"cat-6", "Others", "#64748b", "more-horizontal", []⟩]
    (by decide) (by decide)

/-- C10: the anomaly detector buckets an expense by its week-of-year
number alone; membership in the this-week and last-week windows is
exactly equality of week numbers, with no year comparison at all. -/
theorem week_bucket_ignores_year (expenses : List Expense) (today : SimpleDate)
    (e : Expense) (he : e ∈ expenses) :
    (e ∈ thisWeekExpenses expenses today ↔
      weekOfDateStr e.transactionDate = some (getWeekNumber today)) ∧
    (e ∈ lastWeekExpenses expenses today ↔
      weekOfDateStr e.transactionDate = some (getWeekNumber today - 1)) := by
  constructor <;> simp [thisWeekExpenses, lastWeekExpenses, List.mem_filter, he]

/-- C10, witness: seen from January 10, 2024 (week 2 of 2024), an expense
dated January 12, 2023 (week 2 of 2023) is counted in the this-week
window and one dated January 7, 2023 (week 1 of 2023) in the last-week
window, although both lie in a different calendar year. -/
theorem week_bucket_ignores_year_witness :
    (⟨"e1", "u", "cat-1", 300, "d", "2023-01-12", "manual", "t"⟩ : Expense) ∈
      thisWeekExpenses
        [⟨"e1", "u", "cat-1", 300, "d", "2023-01-12", "manual", "t"⟩,
         ⟨"e2", "u", "cat-1", 100, "d", "2023-01-07", "manual", "t"⟩] ⟨2024, 1, 10⟩ ∧
    (⟨"e2", "u", "cat-1", 100, "d", "2023-01-07", "manual", "t"⟩ : Expense) ∈
      lastWeekExpenses
        [⟨"e1", "u", "cat-1", 300, "d", "2023-01-12", "manual", "t"⟩,
         ⟨"e2", "u", "cat-1", 100, "d", "2023-01-07", "manual", "t"⟩] ⟨2024, 1, 10⟩ :=
  ⟨(week_bucket_ignores_year _ ⟨2024, 1, 10⟩ _ (by decide)).1.mpr (by decide),
   (week_bucket_ignores_year _ ⟨2024, 1, 10⟩ _ (by decide)).2.mpr (by decide)⟩

/-- Totality of the data-row loop when every nonblank row has a field at
the amount column index: each row is converted or skipped and the loop
returns ok. -/
theorem parseRows_ok (todayISO : String) (di de ai : Nat) :
    ∀ rows : List (List Char),
      (∀ l ∈ rows, trimChars l ≠ [] →
        ai < ((splitChar (',') (trimChars l)).map trimChars).length) →
      ∃ ts, parseRows todayISO di de ai rows = Except.ok ts := by
  intro rows
  induction rows with
  | nil => exact fun _ => ⟨[], rfl⟩
  | cons l rest ih =>
    intro h
    have hrest := fun x hx => h x (List.mem_cons_of_mem _ hx)
    obtain ⟨ts, hts⟩ := ih hrest
    by_cases ht : trimChars l = []
    · exact ⟨ts, by simp [parseRows, ht, hts]⟩
    · have hlen : ai < ((splitChar (',') (trimChars l)).map trimChars).length :=
        h l (List.mem_cons_self _ _) ht
      simp only [parseRows, if_neg ht, List.getElem?_eq_getElem hlen]
      split
      · exact ⟨ts, hts⟩
      · split
        · exact ⟨_, by rw [hts]; rfl⟩
        · exact ⟨ts, hts⟩

/-- C3 (amended): when the header resolves all three columns, no data row
that has a field at the amount column index can make the parse fail:
every such row is converted or silently skipped, and parseCSV returns ok.
A nonblank row with fewer comma-separated fields than the amount index
would instead crash the whole call (see the counterexample). -/
theorem parseCSV_row_safety (todayISO content : String) (di de ai : Nat)
    (hd : dateIdx content = some di) (hde : descIdx content = some de)
    (ha : amountIdx content = some ai)
    (hrows : ∀ l ∈ (csvLines content).tail, trimChars l ≠ [] →
      ai < ((splitChar (',') (trimChars l)).map trimChars).length) :
    ∃ ts, parseCSV todayISO content = Except.ok ts := by
  cases hcl : csvLines content with
  | nil => simp [dateIdx, csvHeaders, hcl] at hd
  | cons h rest =>
    simp only [parseCSV, hcl, hd, hde, ha]
    apply parseRows_ok
    intro l hl
    exact hrows l (by rw [hcl]; exact hl)

/-- C3, counterexample to the claim as stated: a well-headed input with a
data row that has no field at the amount column index makes the whole
parse call fail (the TypeError of undefined.replace), not merely skip the
row. -/
theorem parseCSV_row_safety_cex :
    parseCSV "2024-06-01" "date,description,amount\n2024-01-15,coffee" =
      Except.error CsvError.typeError := rfl

/-- C3, witness: a well-headed input whose rows are full length parses to
ok, with blank rows, nonpositive amounts and unparsable amounts skipped
rather than failing. -/
theorem parseCSV_row_safety_witness :
    ∃ ts, parseCSV "2024-06-01"
      "date,description,amount\n2024-01-15,Swiggy Order,450\n   \n15/01/2024,x,-5" =
      Except.ok ts :=
  parseCSV_row_safety "2024-06-01"
    "date,description,amount\n2024-01-15,Swiggy Order,450\n   \n15/01/2024,x,-5"
    0 1 2 rfl rfl rfl (by decide)

/-- Unfolding of the anomaly fold: the alerts accumulated over a category
list are the spec-side filter of the categories by the strict spike
condition, rendered in order. -/
theorem detect_fold (tw lw : List Expense) (cats : List Category) (init : List String) :
    cats.foldl (fun alerts c =>
      if c.name = "Others" then alerts
      else
        if 0 < weekCategoryTotal lw c ∧ weekCategoryTotal lw c * 2 < weekCategoryTotal tw c then
          alerts ++ [anomalyMsg c (weekCategoryTotal tw c) (weekCategoryTotal lw c)]
        else alerts) init =
    init ++ (cats.filter (fun c => decide (c.name ≠ "Others" ∧
        0 < weekCategoryTotal lw c ∧
        2 * weekCategoryTotal lw c < weekCategoryTotal tw c))).map
      (fun c => anomalyMsg c (weekCategoryTotal tw c) (weekCategoryTotal lw c)) := by
  induction cats generalizing init with
  | nil => simp
  | cons c cs ih =>
    simp only [List.foldl_cons, List.filter_cons]
    by_cases hO : c.name = "Others"
    · have hd : (decide (c.name ≠ "Others" ∧ 0 < weekCategoryTotal lw c ∧
          2 * weekCategoryTotal lw c < weekCategoryTotal tw c)) = false := by
        simp [hO]
      rw [if_pos hO, hd, ih]
      simp
    · by_cases hc : 0 < weekCategoryTotal lw c ∧
          2 * weekCategoryTotal lw c < weekCategoryTotal tw c
      · have hif : 0 < weekCategoryTotal lw c ∧
            weekCategoryTotal lw c * 2 < weekCategoryTotal tw c :=
          ⟨hc.1, by rw [mul_comm]; exact hc.2⟩
        have hd : (decide (c.name ≠ "Others" ∧ 0 < weekCategoryTotal lw c ∧
            2 * weekCategoryTotal lw c < weekCategoryTotal tw c)) = true := by
          simp only [decide_eq_true_eq]
          exact ⟨hO, hc⟩
        rw [if_neg hO, if_pos hif, hd, ih]
        simp
      · have hif : ¬(0 < weekCategoryTotal lw c ∧
            weekCategoryTotal lw c * 2 < weekCategoryTotal tw c) :=
          fun hx => hc ⟨hx.1, by rw [mul_comm]; exact hx.2⟩
        have hd : (decide (c.name ≠ "Others" ∧ 0 < weekCategoryTotal lw c ∧
            2 * weekCategoryTotal lw c < weekCategoryTotal tw c)) = false := by
          simp only [decide_eq_false_iff_not]
          exact fun hx => hc hx.2
        rw [if_neg hO, if_neg hif, hd, ih]
        simp

/-- C6: detectAnomalies emits exactly one alert per non-Others category
whose last-week total is strictly positive and whose this-week total is
strictly greater than twice the last-week total, in category order; a
this-week total equal to exactly double, or a zero last-week total, never
appears in the output. -/
theorem detectAnomalies_characterization (expenses : List Expense)
    (categories : List Category) (today : SimpleDate) :
    detectAnomalies expenses categories today =
      (categories.filter (fun c => decide (c.name ≠ "Others" ∧
          0 < weekCategoryTotal (lastWeekExpenses expenses today) c ∧
          2 * weekCategoryTotal (lastWeekExpenses expenses today) c <
            weekCategoryTotal (thisWeekExpenses expenses today) c))).map
        (fun c => anomalyMsg c (weekCategoryTotal (thisWeekExpenses expenses today) c)
          (weekCategoryTotal (lastWeekExpenses expenses today) c)) := by
  simp only [detectAnomalies]
  rw [detect_fold]
  simp

/-- Advice produced by one totals entry has identifier-free fields
independent of the Date.now() read. -/
theorem adviceForEntry_strip (cats : List Category) (T : ℚ) (t1 t2 : Nat)
    (kv : String × ℚ) :
    (adviceForEntry cats T t1 kv).map stripAdviceId =
      (adviceForEntry cats T t2 kv).map stripAdviceId := by
  simp only [adviceForEntry]
  split
  · rfl
  · rename_i category _
    split
    · rfl
    · by_cases h1 : category.name = "Food" ∧ 30 < kv.2 / T * 100 <;>
      by_cases h2 : category.name = "Subscriptions" ∧ 1500 < kv.2 <;>
      by_cases h3 : category.name = "Shopping" ∧ 25 < kv.2 / T * 100 <;>
      simp [h1, h2, h3, foodAdvice, subsAdvice, shopAdvice, stripAdviceId]

/-- Goal advice has identifier-free fields independent of the Date.now()
read. -/
theorem goalAdviceList_strip (g : Option SavingsGoal) (T : ℚ) (t1 t2 : Nat) :
    (goalAdviceList g T t1).map stripAdviceId =
      (goalAdviceList g T t2).map stripAdviceId := by
  cases g with
  | none => rfl
  | some gg =>
    simp only [goalAdviceList]
    by_cases h : gg.active = true ∧ gg.monthlyTarget - T < 0
    · rw [if_pos h, if_pos h]
      simp [goalAdvice, stripAdviceId]
    · rw [if_neg h, if_neg h]

/-- A whole totals pass of the advice rules has identifier-free fields
independent of the Date.now() read. -/
theorem flatMap_advice_strip (cats : List Category) (T : ℚ) (t1 t2 : Nat)
    (totals : List (String × ℚ)) :
    (totals.flatMap (adviceForEntry cats T t1)).map stripAdviceId =
      (totals.flatMap (adviceForEntry cats T t2)).map stripAdviceId := by
  induction totals with
  | nil => rfl
  | cons kv rest ih =>
    simp only [List.flatMap_cons, List.map_append]
    rw [adviceForEntry_strip cats T t1 t2, ih]

/-- C1 (amended): the classifier is a pure function of its two arguments,
and the advice generator is a pure function of its arguments once the
internal clock reads are fixed; across two invocations at different
timestamps (same month window), the outputs agree on every field except
the generated ids, which embed Date.now(). -/
theorem core_determinism (d : String) (cats : List Category)
    (expenses : List Expense) (categories : List Category)
    (goal : Option SavingsGoal) (currentMonth : String) (t1 t2 : Nat) :
    categorizeExpense d cats = categorizeExpense d cats ∧
    (generateAdvice expenses categories goal currentMonth t1).map stripAdviceId =
      (generateAdvice expenses categories goal currentMonth t2).map stripAdviceId := by
  refine ⟨rfl, ?_⟩
  simp only [generateAdvice]
  split
  · rfl
  · simp only [List.map_append]
    congr 1
    · exact flatMap_advice_strip categories _ t1 t2 _
    · exact goalAdviceList_strip goal _ t1 t2

/-- C1, counterexample to the claim as stated: two invocations of
generateAdvice with identical expenses, categories and goal, differing
only in when they run (the Date.now() read), return advice items with
different id fields, so the output is not a function of the three
documented arguments alone. -/
theorem core_determinism_cex :
    (generateAdvice [⟨"e1", "u", "cat-5", 1600, "d", "2024-01-15", "manual", "t"⟩]
        [⟨"cat-5", "Subscriptions", "#ec4899", "refresh-cw", ["netflix"]⟩]
        none "2024-01" 5).map AIAdvice.id = ["advice-subs-5"] ∧
    (generateAdvice [⟨"e1", "u", "cat-5", 1600, "d", "2024-01-15", "manual", "t"⟩]
        [⟨"cat-5", "Subscriptions", "#ec4899", "refresh-cw", ["netflix"]⟩]
        none "2024-01" 6).map AIAdvice.id = ["advice-subs-6"] := by
  decide

/-- C9 (amended): a query containing "transport" or "travel" that matches
none of the earlier intents yields the travel-total report or the
travel no-data message whenever some category is named Travel; when no
category is named Travel, the generic help message is returned instead. -/
theorem chat_travel_intent (message : String) (expenses : List Expense)
    (categories : List Category) (goal : Option SavingsGoal)
    (currentMonth : String) (now : Nat)
    (h1 : (containsSub (lowerStr message) ("biggest") &&
      containsSub (lowerStr message) ("expense")) = false)
    (h2 : (containsSub (lowerStr message) ("save") ||
      containsSub (lowerStr message) ("saving")) = false)
    (h3 : containsSub (lowerStr message) ("goal") = false)
    (h4 : (containsSub (lowerStr message) ("transport") ||
      containsSub (lowerStr message) ("travel")) = true) :
    (∀ tc, categories.find? (fun c => c.name == "Travel") = some tc →
      generateChatResponse message expenses categories goal currentMonth now =
        travelMsg (travelTotal expenses tc currentMonth) ∨
      generateChatResponse message expenses categories goal currentMonth now =
        noTravelDataMsg) ∧
    (categories.find? (fun c => c.name == "Travel") = none →
      generateChatResponse message expenses categories goal currentMonth now =
        genericHelp) := by
  constructor
  · intro tc htc
    simp only [generateChatResponse, h1, h2, h3, h4, htc, Bool.false_eq_true, if_false, if_true]
    by_cases hpos : 0 < travelTotal expenses tc currentMonth
    · exact Or.inl (by rw [if_pos hpos])
    · exact Or.inr (by rw [if_neg hpos])
  · intro hnone
    simp only [generateChatResponse, h1, h2, h3, h4, hnone, Bool.false_eq_true, if_false, if_true]

/-- C9, counterexample to the claim as stated: the query "travel" with no
category named Travel falls through to the generic help message, which is
a third kind of response, neither a travel-total report nor the travel
no-data message. -/
theorem chat_travel_intent_cex :
    generateChatResponse "travel" [] [] none "2024-01" 0 = genericHelp ∧
    genericHelp ≠ noTravelDataMsg := by
  constructor
  · rfl
  · decide

/-- C9, witness of the amended claim: the query "travel" against a list
containing a Travel category with no recorded expenses produces one of
the two travel responses. -/
theorem chat_travel_intent_witness :
    generateChatResponse "travel" [] [⟨"cat-2", "Travel", "#3b82f6", "car", []⟩]
        none "2024-01" 0 =
      travelMsg (travelTotal [] ⟨"cat-2", "Travel", "#3b82f6", "car", []⟩ "2024-01") ∨
    generateChatResponse "travel" [] [⟨"cat-2", "Travel", "#3b82f6", "car", []⟩]
        none "2024-01" 0 = noTravelDataMsg :=
  (chat_travel_intent "travel" [] [⟨"cat-2", "Travel", "#3b82f6", "car", []⟩]
      none "2024-01" 0 (by decide) (by decide) (by decide) (by decide)).1
    ⟨"cat-2", "Travel", "#3b82f6", "car", []⟩ (by decide)

/-! ## Lemmas about the keyed totals map -/

/-- An upsert adds its value to the sum of the stored values. -/
theorem mapAdd_snd_sum (m : List (String × ℚ)) (k : String) (v : ℚ) :
    ((mapAdd m k v).map (fun kv => kv.2)).sum = (m.map (fun kv => kv.2)).sum + v := by
  induction m with
  | nil => simp [mapAdd]
  | cons kv rest ih =>
    by_cases h : kv.1 = k
    · simp only [mapAdd, if_pos h, List.map_cons, List.sum_cons]
      ring
    · simp only [mapAdd, if_neg h, List.map_cons, List.sum_cons, ih]
      ring

/-- The values of the totals map over an accumulator sum to the
accumulator total plus the amounts of the expenses. -/
theorem totals_sum_aux (es : List Expense) :
    ∀ m : List (String × ℚ),
      (((es.foldl (fun m e => mapAdd m e.categoryId e.amount) m).map (fun kv => kv.2)).sum) =
        (m.map (fun kv => kv.2)).sum + (es.map (fun e => e.amount)).sum := by
  induction es with
  | nil => intro m; simp
  | cons e rest ih =>
    intro m
    simp only [List.foldl_cons, List.map_cons, List.sum_cons]
    rw [ih, mapAdd_snd_sum]
    ring

/-- The totals map values sum to the total of all amounts. -/
theorem categoryTotals_sum (es : List Expense) :
    ((categoryTotals es).map (fun kv => kv.2)).sum = (es.map (fun e => e.amount)).sum := by
  simpa [categoryTotals] using totals_sum_aux es []

/-- An upsert of a positive value preserves positivity of all values. -/
theorem mapAdd_pos (m : List (String × ℚ)) (k : String) (v : ℚ)
    (hm : ∀ kv ∈ m, 0 < kv.2) (hv : 0 < v) : ∀ kv ∈ mapAdd m k v, 0 < kv.2 := by
  induction m with
  | nil => simpa [mapAdd] using hv
  | cons kv0 rest ih =>
    intro kv hkv
    by_cases h : kv0.1 = k
    · simp only [mapAdd, if_pos h, List.mem_cons] at hkv
      rcases hkv with h1 | h2
      · subst h1
        exact add_pos (hm kv0 (List.mem_cons_self _ _)) hv
      · exact hm kv (List.mem_cons_of_mem _ h2)
    · simp only [mapAdd, if_neg h, List.mem_cons] at hkv
      rcases hkv with h1 | h2
      · rw [h1]
        exact hm kv0 (List.mem_cons_self _ _)
      · exact ih (fun x hx => hm x (List.mem_cons_of_mem _ hx)) kv h2

/-- All totals of positive amounts are positive. -/
theorem categoryTotals_pos (es : List Expense) (hpos : ∀ e ∈ es, 0 < e.amount) :
    ∀ kv ∈ categoryTotals es, 0 < kv.2 := by
  suffices h : ∀ m : List (String × ℚ), (∀ kv ∈ m, 0 < kv.2) →
      ∀ kv ∈ es.foldl (fun m e => mapAdd m e.categoryId e.amount) m, 0 < kv.2 by
    exact h [] (by simp)
  induction es with
  | nil => intro m hm; simpa using hm
  | cons e rest ih =>
    intro m hm
    simp only [List.foldl_cons]
    exact ih (fun x hx => hpos x (List.mem_cons_of_mem _ hx))
      (mapAdd m e.categoryId e.amount)
      (mapAdd_pos m e.categoryId e.amount hm (hpos e (List.mem_cons_self _ _)))

/-- A key of an upsert is the inserted key or a key of the original map. -/
theorem mapAdd_key_mem (m : List (String × ℚ)) (k : String) (v : ℚ) :
    ∀ j ∈ (mapAdd m k v).map Prod.fst, j = k ∨ j ∈ m.map Prod.fst := by
  induction m with
  | nil => simp [mapAdd]
  | cons kv0 rest ih =>
    intro j hj
    by_cases h : kv0.1 = k
    · simp only [mapAdd, if_pos h, List.map_cons, List.mem_cons] at hj
      rcases hj with h1 | h2
      · exact Or.inr (by simp [h1])
      · exact Or.inr (by simp [h2])
    · simp only [mapAdd, if_neg h, List.map_cons, List.mem_cons] at hj
      rcases hj with h1 | h2
      · exact Or.inr (by simp [h1])
      · rcases ih j h2 with h3 | h4
        · exact Or.inl h3
        · exact Or.inr (by simp [h4])

/-- Keys of the original map survive an upsert. -/
theorem mapAdd_key_mono (m : List (String × ℚ)) (k : String) (v : ℚ) :
    ∀ j ∈ m.map Prod.fst, j ∈ (mapAdd m k v).map Prod.fst := by
  induction m with
  | nil => simp
  | cons kv0 rest ih =>
    intro j hj
    by_cases h : kv0.1 = k
    · simpa [mapAdd, if_pos h] using hj
    · simp only [List.map_cons, List.mem_cons] at hj
      rcases hj with h1 | h2
      · simp [mapAdd, if_neg h, h1]
      · simp only [mapAdd, if_neg h, List.map_cons, List.mem_cons]
        exact Or.inr (ih j h2)

/-- The inserted key is a key of the upsert result. -/
theorem mapAdd_key_self (m : List (String × ℚ)) (k : String) (v : ℚ) :
    k ∈ (mapAdd m k v).map Prod.fst := by
  induction m with
  | nil => simp [mapAdd]
  | cons kv0 rest ih =>
    by_cases h : kv0.1 = k
    · simp [mapAdd, if_pos h, h]
    · simp only [mapAdd, if_neg h, List.map_cons, List.mem_cons]
      exact Or.inr ih

/-- Every totals key is the category id of one of the expenses. -/
theorem categoryTotals_key (es : List Expense) :
    ∀ kv ∈ categoryTotals es, ∃ e ∈ es, kv.1 = e.categoryId := by
  suffices h : ∀ m : List (String × ℚ),
      ∀ kv ∈ es.foldl (fun m e => mapAdd m e.categoryId e.amount) m,
        kv.1 ∈ m.map Prod.fst ∨ ∃ e ∈ es, kv.1 = e.categoryId by
    intro kv hkv
    rcases h [] kv hkv with h1 | h2
    · simp at h1
    · exact h2
  induction es with
  | nil =>
    intro m kv hkv
    exact Or.inl (List.mem_map_of_mem _ hkv)
  | cons e rest ih =>
    intro m kv hkv
    simp only [List.foldl_cons] at hkv
    rcases ih (mapAdd m e.categoryId e.amount) kv hkv with h1 | h2
    · rcases mapAdd_key_mem m e.categoryId e.amount kv.1 h1 with h3 | h4
      · exact Or.inr ⟨e, List.mem_cons_self _ _, h3⟩
      · exact Or.inl h4
    · rcases h2 with ⟨x, hx, hxe⟩
      exact Or.inr ⟨x, List.mem_cons_of_mem _ hx, hxe⟩

/-- Accumulator form of the key-existence claim. -/
theorem categoryTotals_key_exists_aux (k : String) :
    ∀ (es : List Expense) (m : List (String × ℚ)),
      (k ∈ m.map Prod.fst ∨ ∃ e ∈ es, e.categoryId = k) →
      k ∈ ((es.foldl (fun m e => mapAdd m e.categoryId e.amount) m).map Prod.fst) := by
  intro es
  induction es with
  | nil =>
    intro m hm
    rcases hm with h1 | h2
    · simpa using h1
    · simp at h2
  | cons e rest ih =>
    intro m hm
    simp only [List.foldl_cons]
    rcases hm with h1 | h2
    · exact ih _ (Or.inl (mapAdd_key_mono m e.categoryId e.amount k h1))
    · rcases h2 with ⟨x, hx, hxe⟩
      rcases List.mem_cons.mp hx with h3 | h4
      · subst h3
        subst hxe
        exact ih _ (Or.inl (mapAdd_key_self m x.categoryId x.amount))
      · exact ih _ (Or.inr ⟨x, h4, hxe⟩)

/-- A category id occurring among the expenses occurs among the totals
keys. -/
theorem categoryTotals_key_exists (es : List Expense) (k : String)
    (he : ∃ e ∈ es, e.categoryId = k) :
    ∃ kv ∈ categoryTotals es, kv.1 = k := by
  have hk := categoryTotals_key_exists_aux k es [] (Or.inr he)
  rcases List.mem_map.mp hk with ⟨kv, hkv, hfst⟩
  exact ⟨kv, hkv, hfst⟩

/-- One step of the per-category direct sum. -/
theorem categorySum_cons (e : Expense) (es : List Expense) (k : String) :
    categorySum (e :: es) k =
      (if e.categoryId == k then e.amount else 0) + categorySum es k := by
  by_cases h : e.categoryId == k
  · simp [categorySum, List.filter_cons, h]
  · simp [categorySum, List.filter_cons, h]

/-- Reading an association list whose head key matches. -/
theorem lookupAmt_cons_hit (kv0 : String × ℚ) (rest : List (String × ℚ)) (j : String)
    (h : kv0.1 = j) : lookupAmt (kv0 :: rest) j = kv0.2 := by
  have hb : (kv0.1 == j) = true := by simp [h]
  simp [lookupAmt, List.find?, hb]

/-- Reading an association list whose head key differs. -/
theorem lookupAmt_cons_miss (kv0 : String × ℚ) (rest : List (String × ℚ)) (j : String)
    (h : ¬kv0.1 = j) : lookupAmt (kv0 :: rest) j = lookupAmt rest j := by
  have hb : (kv0.1 == j) = false := beq_eq_false_iff_ne.mpr h
  simp [lookupAmt, List.find?, hb]

/-- Reading the empty association list. -/
theorem lookupAmt_nil (j : String) : lookupAmt [] j = 0 := rfl

/-- Reading a key after an upsert: the upserted key gains v, all other
keys are unchanged. -/
theorem lookupAmt_mapAdd (m : List (String × ℚ)) (k : String) (v : ℚ) (j : String) :
    lookupAmt (mapAdd m k v) j =
      if j = k then lookupAmt m j + v else lookupAmt m j := by
  induction m with
  | nil =>
    simp only [mapAdd]
    by_cases hj : j = k
    · rw [if_pos hj, lookupAmt_cons_hit (k, v) [] j hj.symm, lookupAmt_nil, zero_add]
    · rw [if_neg hj, lookupAmt_cons_miss (k, v) [] j (fun h => hj h.symm), lookupAmt_nil]
  | cons kv0 rest ih =>
    by_cases h0 : kv0.1 = k
    · simp only [mapAdd, if_pos h0]
      by_cases hj : kv0.1 = j
      · have hjk : j = k := by rw [← hj, h0]
        rw [if_pos hjk, lookupAmt_cons_hit (kv0.1, kv0.2 + v) rest j hj,
          lookupAmt_cons_hit kv0 rest j hj]
      · have hjk : ¬j = k := fun h => hj (by rw [h0, ← h])
        rw [if_neg hjk, lookupAmt_cons_miss (kv0.1, kv0.2 + v) rest j hj,
          lookupAmt_cons_miss kv0 rest j hj]
    · simp only [mapAdd, if_neg h0]
      by_cases hj : kv0.1 = j
      · have hjk : ¬j = k := fun h => h0 (by rw [hj, h])
        rw [if_neg hjk, lookupAmt_cons_hit kv0 (mapAdd rest k v) j hj,
          lookupAmt_cons_hit kv0 rest j hj]
      · rw [lookupAmt_cons_miss kv0 (mapAdd rest k v) j hj, ih,
          lookupAmt_cons_miss kv0 rest j hj]

/-- An upsert preserves distinctness of the keys. -/
theorem mapAdd_keys_nodup (m : List (String × ℚ)) (k : String) (v : ℚ)
    (hnd : (m.map Prod.fst).Nodup) : ((mapAdd m k v).map Prod.fst).Nodup := by
  induction m with
  | nil => simp [mapAdd]
  | cons kv0 rest ih =>
    rw [List.map_cons, List.nodup_cons] at hnd
    by_cases h0 : kv0.1 = k
    · simp only [mapAdd, if_pos h0, List.map_cons, List.nodup_cons]
      exact hnd
    · simp only [mapAdd, if_neg h0, List.map_cons, List.nodup_cons]
      refine ⟨fun hmem => ?_, ih hnd.2⟩
      rcases mapAdd_key_mem rest k v kv0.1 hmem with h1 | h2
      · exact h0 h1
      · exact hnd.1 h2

/-- With distinct keys, reading the key of a stored entry returns its
value. -/
theorem lookupAmt_mem (m : List (String × ℚ)) (kv : String × ℚ)
    (hnd : (m.map Prod.fst).Nodup) (hkv : kv ∈ m) : lookupAmt m kv.1 = kv.2 := by
  induction m with
  | nil => simp at hkv
  | cons kv0 rest ih =>
    rw [List.map_cons, List.nodup_cons] at hnd
    rcases List.mem_cons.mp hkv with h1 | h2
    · subst h1
      simp [lookupAmt, List.find?_cons_of_pos]
    · have hb : (kv0.1 == kv.1) = false := by
        simp only [beq_eq_false_iff_ne, ne_eq]
        intro hcontra
        exact hnd.1 (hcontra ▸ List.mem_map_of_mem Prod.fst h2)
      have : lookupAmt (kv0 :: rest) kv.1 = lookupAmt rest kv.1 := by
        simp [lookupAmt, List.find?_cons_of_neg, hb]
      rw [this]
      exact ih hnd.2 h2

/-- Accumulator form of the value characterization: every entry of the
totals built over an accumulator with distinct keys holds its initial
value plus the direct per-category sum. -/
theorem totals_val_aux (es : List Expense) :
    ∀ m : List (String × ℚ), (m.map Prod.fst).Nodup →
      ∀ kv ∈ es.foldl (fun m e => mapAdd m e.categoryId e.amount) m,
        kv.2 = lookupAmt m kv.1 + categorySum es kv.1 := by
  induction es with
  | nil =>
    intro m hnd kv hkv
    have h0 : categorySum [] kv.1 = 0 := rfl
    simp only [List.foldl_nil] at hkv
    rw [h0, lookupAmt_mem m kv hnd hkv, add_zero]
  | cons e rest ih =>
    intro m hnd kv hkv
    simp only [List.foldl_cons] at hkv
    have h1 := ih (mapAdd m e.categoryId e.amount)
      (mapAdd_keys_nodup m e.categoryId e.amount hnd) kv hkv
    rw [lookupAmt_mapAdd] at h1
    rw [categorySum_cons]
    by_cases hj : kv.1 = e.categoryId
    · have hb : (e.categoryId == kv.1) = true := by simp [hj.symm]
      rw [if_pos hj] at h1
      rw [h1, if_pos hb]
      ring
    · have hb : (e.categoryId == kv.1) = false := by
        simp only [beq_eq_false_iff_ne, ne_eq]
        exact fun h => hj h.symm
      rw [if_neg hj] at h1
      rw [h1, if_neg (by simp [hb] : ¬(e.categoryId == kv.1) = true)]
      ring

/-- Every entry of the totals map holds exactly the direct sum of the
amounts carrying its key. -/
theorem categoryTotals_val (es : List Expense) :
    ∀ kv ∈ categoryTotals es, kv.2 = categorySum es kv.1 := by
  intro kv hkv
  have := totals_val_aux es [] (by simp) kv hkv
  simpa [lookupAmt] using this

/-- With distinct category ids, searching a list for the id of one of its
members finds that member. -/
theorem find_by_id (cats : List Category) (food : Category)
    (hmem : food ∈ cats) (hnd : (cats.map Category.id).Nodup) :
    cats.find? (fun c => c.id == food.id) = some food := by
  induction cats with
  | nil => simp at hmem
  | cons c cs ih =>
    rw [List.map_cons, List.nodup_cons] at hnd
    rcases List.mem_cons.mp hmem with h1 | h2
    · subst h1
      simp [List.find?_cons_of_pos]
    · have hne : (c.id == food.id) = false := by
        simp only [beq_eq_false_iff_ne, ne_eq]
        intro hcontra
        exact hnd.1 (hcontra ▸ List.mem_map_of_mem Category.id h2)
      rw [List.find?_cons_of_neg _ (by simp [hne])]
      exact ih h2 hnd.2

/-- A totals entry produces a Food-tagged advice item exactly when its
category resolves to one named Food and its share of the total is
strictly above 30 percent. -/
theorem adviceForEntry_food_any (cats : List Category) (T : ℚ) (now : Nat)
    (kv : String × ℚ) :
    ((adviceForEntry cats T now kv).any (fun a => a.category == some ("Food")) = true) ↔
      ∃ c, cats.find? (fun c => c.id == kv.1) = some c ∧ c.name = "Food" ∧
        30 < kv.2 / T * 100 := by
  simp only [adviceForEntry]
  cases hf : cats.find? (fun c => c.id == kv.1) with
  | none => simp
  | some c =>
    dsimp only
    by_cases hO : c.name = "Others"
    · rw [if_pos hO]
      simp only [List.any_nil, Bool.false_eq_true, false_iff]
      rintro ⟨c', hc', hn, _⟩
      have hcc : c = c' := by injection hc'
      rw [← hcc] at hn
      rw [hn] at hO
      exact (by decide : ("Food" : String) ≠ "Others") hO
    · rw [if_neg hO]
      constructor
      · intro hany
        rcases List.any_eq_true.mp hany with ⟨a, ha, hpa⟩
        rcases List.mem_append.mp ha with h12 | h3
        · rcases List.mem_append.mp h12 with hf1 | hf2
          · by_cases h1 : c.name = "Food" ∧ 30 < kv.2 / T * 100
            · exact ⟨c, rfl, h1.1, h1.2⟩
            · rw [if_neg h1] at hf1
              simp at hf1
          · by_cases h2 : c.name = "Subscriptions" ∧ 1500 < kv.2
            · rw [if_pos h2] at hf2
              rw [List.mem_singleton] at hf2
              rw [hf2] at hpa
              simp [subsAdvice] at hpa
            · rw [if_neg h2] at hf2
              simp at hf2
        · by_cases h3c : c.name = "Shopping" ∧ 25 < kv.2 / T * 100
          · rw [if_pos h3c] at h3
            rw [List.mem_singleton] at h3
            rw [h3] at hpa
            simp [shopAdvice] at hpa
          · rw [if_neg h3c] at h3
            simp at h3
      · rintro ⟨c', hc', hn, hpct⟩
        have hcc : c = c' := by injection hc'
        rw [← hcc] at hn
        rw [if_pos ⟨hn, hpct⟩]
        apply List.any_eq_true.mpr
        exact ⟨foodAdvice now (kv.2 / T * 100) kv.2,
          List.mem_append.mpr (Or.inl (List.mem_append.mpr (Or.inl (List.mem_singleton.mpr rfl)))),
          by simp [foodAdvice]⟩

/-- A Food-tagged advice item produced by a totals entry certifies that
the entry resolves to a category named Food and carries a potential
saving of 30 percent of the entry value. -/
theorem adviceForEntry_food_savings (cats : List Category) (T : ℚ) (now : Nat)
    (kv : String × ℚ) (a : AIAdvice) (ha : a ∈ adviceForEntry cats T now kv)
    (hcat : a.category = some ("Food")) :
    (∃ c, cats.find? (fun c => c.id == kv.1) = some c ∧ c.name = "Food") ∧
      a.potentialSavings = some (kv.2 * (3 / 10)) := by
  rw [adviceForEntry] at ha
  revert ha
  cases hf : cats.find? (fun c => c.id == kv.1) with
  | none => intro ha; simp at ha
  | some c =>
    intro ha
    dsimp only at ha
    by_cases hO : c.name = "Others"
    · rw [if_pos hO] at ha
      simp at ha
    · rw [if_neg hO] at ha
      rcases List.mem_append.mp ha with h12 | h3
      · rcases List.mem_append.mp h12 with hf1 | hf2
        · by_cases h1 : c.name = "Food" ∧ 30 < kv.2 / T * 100
          · rw [if_pos h1] at hf1
            rw [List.mem_singleton] at hf1
            rw [hf1]
            exact ⟨⟨c, rfl, h1.1⟩, by simp [foodAdvice]⟩
          · rw [if_neg h1] at hf1
            simp at hf1
        · by_cases h2 : c.name = "Subscriptions" ∧ 1500 < kv.2
          · rw [if_pos h2] at hf2
            rw [List.mem_singleton] at hf2
            rw [hf2] at hcat
            simp [subsAdvice] at hcat
          · rw [if_neg h2] at hf2
            simp at hf2
      · by_cases h3c : c.name = "Shopping" ∧ 25 < kv.2 / T * 100
        · rw [if_pos h3c] at h3
          rw [List.mem_singleton] at h3
          rw [h3] at hcat
          simp [shopAdvice] at hcat
        · rw [if_neg h3c] at h3
          simp at h3

/-- Every goal-rule advice item is tagged with the Goal category. -/
theorem goalAdviceList_cat (g : Option SavingsGoal) (T : ℚ) (now : Nat)
    (a : AIAdvice) (ha : a ∈ goalAdviceList g T now) : a.category = some ("Goal") := by
  cases g with
  | none => simp [goalAdviceList] at ha
  | some gg =>
    rw [goalAdviceList] at ha
    by_cases h : gg.active = true ∧ gg.monthlyTarget - T < 0
    · rw [if_pos h, List.mem_singleton] at ha
      rw [ha]
      rfl
    · rw [if_neg h] at ha
      simp at ha

set_option maxHeartbeats 1600000 in
/-- C5: generateAdvice emits the high-food-spend advice exactly when the
share of the category named Food in the current-month total is strictly
above 30 percent, and every Food-tagged advice item carries a potential
saving of 30 percent of the Food month total; at a share of exactly 30
percent nothing is emitted (30 < 30 fails). Hypotheses: the Food category
is in the list, is the only category named Food, and category ids are
distinct. -/
theorem food_rule (expenses : List Expense) (categories : List Category)
    (goal : Option SavingsGoal) (currentMonth : String) (now : Nat) (food : Category)
    (hmem : food ∈ categories) (hname : food.name = "Food")
    (huniq : ∀ c ∈ categories, c.name = "Food" → c = food)
    (hnodup : (categories.map Category.id).Nodup) :
    ((generateAdvice expenses categories goal currentMonth now).any
        (fun a => a.category == some ("Food")) = true ↔
      30 < categorySum (monthExpenses expenses currentMonth) food.id /
        monthTotal expenses currentMonth * 100) ∧
    ∀ a ∈ generateAdvice expenses categories goal currentMonth now,
      a.category = some ("Food") →
      a.potentialSavings =
        some (categorySum (monthExpenses expenses currentMonth) food.id * (3 / 10)) := by
  have hTeq : ((categoryTotals (monthExpenses expenses currentMonth)).map
      (fun kv => kv.2)).sum = monthTotal expenses currentMonth := by
    rw [monthTotal]
    exact categoryTotals_sum _
  by_cases hE : monthExpenses expenses currentMonth = []
  · constructor
    · simp only [generateAdvice, hE, categorySum, List.filter_nil, List.map_nil,
        List.sum_nil, zero_div, zero_mul, if_true, List.any_nil,
        Bool.false_eq_true, false_iff, not_lt]
      norm_num
    · intro a ha
      simp only [generateAdvice, hE, if_true, List.not_mem_nil] at ha
  · simp only [generateAdvice, if_neg hE]
    rw [hTeq]
    constructor
    · rw [List.any_append]
      have hgoal : (goalAdviceList goal (monthTotal expenses currentMonth) now).any
          (fun a => a.category == some ("Food")) = false := by
        apply List.any_eq_false.mpr
        intro a ha
        rw [goalAdviceList_cat _ _ _ a ha]
        decide
      rw [hgoal, Bool.or_false]
      constructor
      · intro hany
        rcases List.any_eq_true.mp hany with ⟨a, ha, hpa⟩
        rcases List.mem_flatMap.mp ha with ⟨kv, hkv, haf⟩
        rcases (adviceForEntry_food_any categories (monthTotal expenses currentMonth)
            now kv).mp (List.any_eq_true.mpr ⟨a, haf, hpa⟩) with ⟨c, hfind, hcname, hpct⟩
        have hceq : c = food := huniq c (List.mem_of_find?_eq_some hfind) hcname
        have hid : c.id = kv.1 := by simpa using List.find?_some hfind
        have hk : kv.1 = food.id := by rw [← hid, hceq]
        have hval := categoryTotals_val _ kv hkv
        rw [hk] at hval
        rw [hval] at hpct
        exact hpct
      · intro hpct
        have hS0 : categorySum (monthExpenses expenses currentMonth) food.id ≠ 0 := by
          intro h0
          rw [h0, zero_div, zero_mul] at hpct
          exact absurd hpct (by norm_num)
        have hex : ∃ e ∈ monthExpenses expenses currentMonth, e.categoryId = food.id := by
          by_contra hno
          push_neg at hno
          apply hS0
          have hfil : (monthExpenses expenses currentMonth).filter
              (fun e => e.categoryId == food.id) = [] := by
            rw [List.filter_eq_nil_iff]
            intro e he
            simp [hno e he]
          simp [categorySum, hfil]
        rcases categoryTotals_key_exists _ food.id hex with ⟨kv, hkv, hk⟩
        have hval := categoryTotals_val _ kv hkv
        rw [hk] at hval
        have hfind : categories.find? (fun c => c.id == kv.1) = some food := by
          rw [hk]
          exact find_by_id categories food hmem hnodup
        have hany2 := (adviceForEntry_food_any categories (monthTotal expenses currentMonth)
            now kv).mpr ⟨food, hfind, hname, by rw [hval]; exact hpct⟩
        rcases List.any_eq_true.mp hany2 with ⟨a, haf, hpa⟩
        exact List.any_eq_true.mpr ⟨a, List.mem_flatMap.mpr ⟨kv, hkv, haf⟩, hpa⟩
    · intro a ha hcat
      rcases List.mem_append.mp ha with hfm | hgl
      · rcases List.mem_flatMap.mp hfm with ⟨kv, hkv, haf⟩
        rcases adviceForEntry_food_savings categories (monthTotal expenses currentMonth)
            now kv a haf hcat with ⟨⟨c, hfind, hcname⟩, hsav⟩
        have hceq : c = food := huniq c (List.mem_of_find?_eq_some hfind) hcname
        have hid : c.id = kv.1 := by simpa using List.find?_some hfind
        have hk : kv.1 = food.id := by rw [← hid, hceq]
        have hval := categoryTotals_val _ kv hkv
        rw [hk] at hval
        rw [hsav, hval]
      · have hg := goalAdviceList_cat goal _ now a hgl
        rw [hg] at hcat
        exact absurd hcat (by decide)

/-- C5, witness: a month with 400 on Food out of 1000 total (a 40 percent
share) makes generateAdvice emit a Food-tagged advice item. -/
theorem food_rule_witness :
    (generateAdvice
        [⟨"e1", "u", "cat-1", 400, "Swiggy Order", "2024-01-05", "manual", "t"⟩,
         ⟨"e2", "u", "cat-6", 600, "misc", "2024-01-07", "manual", "t"⟩]
        [⟨"cat-1", "Food", "#ef4444", "utensils", ["swiggy"]⟩,
         ⟨"cat-6", "Others", "#64748b", "more-horizontal", []⟩]
        none "2024-01" 7).any (fun a => a.category == some ("Food")) = true :=
  (food_rule
      [⟨"e1", "u", "cat-1", 400, "Swiggy Order", "2024-01-05", "manual", "t"⟩,
       ⟨"e2", "u", "cat-6", 600, "misc", "2024-01-07", "manual", "t"⟩]
      [⟨"cat-1", "Food", "#ef4444", "utensils", ["swiggy"]⟩,
       ⟨"cat-6", "Others", "#64748b", "more-horizontal", []⟩]
      none "2024-01" 7 ⟨"cat-1", "Food", "#ef4444", "utensils", ["swiggy"]⟩
      (by decide) rfl (by decide) (by decide)).1.mpr (by
    have hme : monthExpenses
        [⟨"e1", "u", "cat-1", 400, "Swiggy Order", "2024-01-05", "manual", "t"⟩,
         ⟨"e2", "u", "cat-6", 600, "misc", "2024-01-07", "manual", "t"⟩] "2024-01" =
        [⟨"e1", "u", "cat-1", 400, "Swiggy Order", "2024-01-05", "manual", "t"⟩,
         ⟨"e2", "u", "cat-6", 600, "misc", "2024-01-07", "manual", "t"⟩] := rfl
    have hx : (("cat-6" : String) == "cat-1") = false := by decide
    simp only [categorySum, monthTotal, hme]
    norm_num [hx])

/-- Distributing the shared denominator out of a percentage sum. -/
theorem sum_div_mul_totals (T : ℚ) (totals : List (String × ℚ)) :
    (totals.map (fun kv => kv.2 / T * 100)).sum =
      (totals.map (fun kv => kv.2)).sum / T * 100 := by
  induction totals with
  | nil => simp
  | cons kv rest ih =>
    simp only [List.map_cons, List.sum_cons, ih]
    ring

/-- The rendered percentage sum is bounded by the percentage sum over all
entries, resolved or not, when every share is nonnegative. -/
theorem insight_sum_le (cats : List Category) (T : ℚ) (totals : List (String × ℚ))
    (h : ∀ kv ∈ totals, 0 ≤ kv.2 / T * 100) :
    ((totals.flatMap (insightFor cats T)).map SpendingInsight.percentage).sum ≤
      (totals.map (fun kv => kv.2 / T * 100)).sum := by
  induction totals with
  | nil => simp
  | cons kv rest ih =>
    simp only [List.flatMap_cons, List.map_append, List.sum_append, List.map_cons,
      List.sum_cons]
    have hrest := ih (fun x hx => h x (List.mem_cons_of_mem _ hx))
    have hhead : ((insightFor cats T kv).map SpendingInsight.percentage).sum ≤
        kv.2 / T * 100 := by
      rw [insightFor]
      cases cats.find? (fun c => c.id == kv.1) with
      | none => simpa using h kv (List.mem_cons_self _ _)
      | some c => simp
    exact add_le_add hhead hrest

/-- When every entry resolves to a category, the rendered percentage sum
equals the percentage sum over all entries. -/
theorem insight_sum_eq (cats : List Category) (T : ℚ) (totals : List (String × ℚ))
    (h : ∀ kv ∈ totals, ∃ c, cats.find? (fun x => x.id == kv.1) = some c) :
    ((totals.flatMap (insightFor cats T)).map SpendingInsight.percentage).sum =
      (totals.map (fun kv => kv.2 / T * 100)).sum := by
  induction totals with
  | nil => simp
  | cons kv rest ih =>
    simp only [List.flatMap_cons, List.map_append, List.sum_append, List.map_cons,
      List.sum_cons]
    rcases h kv (List.mem_cons_self _ _) with ⟨c, hc⟩
    rw [insightFor, hc]
    rw [ih (fun x hx => h x (List.mem_cons_of_mem _ hx))]
    simp

/-- Inserting into the descending list is a permutation of consing. -/
theorem insertDesc_perm (x : SpendingInsight) (l : List SpendingInsight) :
    (insertDesc x l).Perm (x :: l) := by
  induction l with
  | nil => exact List.Perm.refl _
  | cons y ys ih =>
    rw [insertDesc]
    by_cases h : y.amount < x.amount
    · rw [if_pos h]
    · rw [if_neg h]
      exact (ih.cons y).trans (List.Perm.swap x y ys)

/-- The descending sort permutes its input. -/
theorem sortByAmountDesc_perm (l : List SpendingInsight) :
    (sortByAmountDesc l).Perm l := by
  induction l with
  | nil => exact List.Perm.refl _
  | cons x xs ih =>
    rw [sortByAmountDesc, List.foldr_cons]
    exact (insertDesc_perm x _).trans (ih.cons x)

set_option maxHeartbeats 1600000 in
/-- C4: over expense collections satisfying the positive-amount data
invariant, the percentages of the aggregator insights sum to at most 100;
when the month is nonempty and every expense category id resolves to a
category of the supplied list, the sum is exactly 100 in exact
arithmetic. -/
theorem percentage_sum (expenses : List Expense) (categories : List Category)
    (currentMonth : String) (hpos : ∀ e ∈ expenses, 0 < e.amount) :
    ((spendingInsights expenses categories currentMonth).map
        SpendingInsight.percentage).sum ≤ 100 ∧
    (monthExpenses expenses currentMonth ≠ [] →
      (∀ e ∈ monthExpenses expenses currentMonth, ∃ c ∈ categories, c.id = e.categoryId) →
      ((spendingInsights expenses categories currentMonth).map
        SpendingInsight.percentage).sum = 100) := by
  have hperm : ((spendingInsights expenses categories currentMonth).map
      SpendingInsight.percentage).sum =
      ((insightsUnsorted expenses categories currentMonth).map
        SpendingInsight.percentage).sum :=
    List.Perm.sum_eq (List.Perm.map _ (sortByAmountDesc_perm _))
  have hposM : ∀ e ∈ monthExpenses expenses currentMonth, 0 < e.amount :=
    fun e he => hpos e (List.mem_of_mem_filter he)
  by_cases hE : monthExpenses expenses currentMonth = []
  · have h0 : insightsUnsorted expenses categories currentMonth = [] := by
      simp [insightsUnsorted, hE, categoryTotals]
    constructor
    · rw [hperm, h0]
      norm_num
    · intro hne _
      exact absurd hE hne
  · have hTeq : ((categoryTotals (monthExpenses expenses currentMonth)).map
        (fun kv => kv.2)).sum = monthTotal expenses currentMonth := by
      rw [monthTotal]
      exact categoryTotals_sum _
    have hT : 0 < monthTotal expenses currentMonth := by
      rw [monthTotal]
      apply List.sum_pos
      · intro x hx
        rcases List.mem_map.mp hx with ⟨e, he, hxe⟩
        rw [← hxe]
        exact hposM e he
      · intro hmap
        exact hE (List.map_eq_nil_iff.mp hmap)
    have hkvpos := categoryTotals_pos _ hposM
    have hIU : insightsUnsorted expenses categories currentMonth =
        (categoryTotals (monthExpenses expenses currentMonth)).flatMap
          (insightFor categories (monthTotal expenses currentMonth)) := by
      simp only [insightsUnsorted]
      rw [hTeq]
    have heq2 := sum_div_mul_totals (monthTotal expenses currentMonth)
      (categoryTotals (monthExpenses expenses currentMonth))
    rw [hTeq] at heq2
    have h100 : monthTotal expenses currentMonth / monthTotal expenses currentMonth
        * 100 = (100 : ℚ) := by
      rw [div_self (ne_of_gt hT)]
      norm_num
    constructor
    · rw [hperm, hIU]
      have hb := insight_sum_le categories (monthTotal expenses currentMonth)
        (categoryTotals (monthExpenses expenses currentMonth))
        (fun kv hkv => le_of_lt (mul_pos (div_pos (hkvpos kv hkv) hT) (by norm_num)))
      rw [heq2, h100] at hb
      exact hb
    · intro hne hres
      have hfind : ∀ kv ∈ categoryTotals (monthExpenses expenses currentMonth),
          ∃ c, categories.find? (fun x => x.id == kv.1) = some c := by
        intro kv hkv
        rcases categoryTotals_key _ kv hkv with ⟨e, he, hke⟩
        rcases hres e he with ⟨c, hc, hcid⟩
        have hsome : (categories.find? (fun x => x.id == kv.1)).isSome :=
          List.find?_isSome.mpr ⟨c, hc, by simp [hcid, hke]⟩
        exact Option.isSome_iff_exists.mp hsome
      rw [hperm, hIU, insight_sum_eq categories _ _ hfind, heq2, h100]

/-- C4, witness: a fully categorized two-expense month has insight
percentages summing to exactly 100. -/
theorem percentage_sum_witness :
    ((spendingInsights
        [⟨"e1", "u", "cat-1", 400, "Swiggy Order", "2024-01-05", "manual", "t"⟩,
         ⟨"e2", "u", "cat-6", 600, "misc", "2024-01-07", "manual", "t"⟩]
        [⟨"cat-1", "Food", "#ef4444", "utensils", ["swiggy"]⟩,
         ⟨"cat-6", "Others", "#64748b", "more-horizontal", []⟩]
        "2024-01").map SpendingInsight.percentage).sum = 100 :=
  (percentage_sum
      [⟨"e1", "u", "cat-1", 400, "Swiggy Order", "2024-01-05", "manual", "t"⟩,
       ⟨"e2", "u", "cat-6", 600, "misc", "2024-01-07", "manual", "t"⟩]
      [⟨"cat-1", "Food", "#ef4444", "utensils", ["swiggy"]⟩,
       ⟨"cat-6", "Others", "#64748b", "more-horizontal", []⟩]
      "2024-01" (by decide)).2 (by decide) (by decide)

end FinCoach
